import Mathlib

/-!
Shallow embedding of the posix-system-mcp server (Go) and proofs about its
specification claims.

The embedding translates the pure decision logic of the Go sources into Lean
definitions.  Interactions with the operating system (gopsutil calls such as
disk.Usage, net.IOCounters, process enumeration and per-process detail
collection) are modelled as explicit oracle parameters: a call outcome is an
Except value (error or result) supplied to the embedded function, exactly at
the point where the Go code receives the corresponding (value, err) pair.
Go float64/float32 fields that the code only ever compares (cpu percent,
memory percent, used percent) are modelled on Int, an ordered type with
decidable comparison; the embedded logic never does float arithmetic.
-/

/-! ## HTTP adapter configuration (src/unnamed/part_000, parseConfig) -/

/-- Runtime configuration of the HTTP adapter, mirroring the Go struct
ServerConfig with fields RefreshInterval (json refreshInterval) and
EnableDebug (json enableDebug). -/
structure ServerConfig where
  refreshInterval : Int
  enableDebug : Bool
deriving DecidableEq

/-- Embedding of the validation step of HTTPServer.parseConfig (lines 337-342
of the HTTP adapter file): after a successful base64 decode and JSON
unmarshal produced the struct c, the code replaces an out-of-range
RefreshInterval by the default 1000 and then installs the struct.  Base64
and JSON decoding of a well-formed blob are modelled as the identity on the
decoded struct. -/
def parseConfig (c : ServerConfig) : ServerConfig :=
  if c.refreshInterval < 100 ∨ c.refreshInterval > 10000 then
    { c with refreshInterval := 1000 }
  else
    c

/-- Written from the words of the spec, not from the source: the refresh
interval clamped into [100,10000], an out-of-range value mapping to the
nearest bound.  Used to compare the spec sentence with parseConfig. -/
def specClampedInterval (i : Int) : Int :=
  max 100 (min i 10000)

/-! ## CPU sampling interval (src/main.go, getCPUInfo lines 328-338) -/

/-- Embedding of the interval computation at the top of getCPUInfo: the
default interval is one second (1000 ms); a positive intervalMs argument is
first raised to 100 and then lowered to 10000, and a non-positive argument
leaves the default in place.  The result is the effective sampling window in
milliseconds. -/
def cpuSamplingIntervalMs (intervalMs : Int) : Int :=
  if intervalMs > 0 then
    let i1 := if intervalMs < 100 then 100 else intervalMs
    let i2 := if i1 > 10000 then 10000 else i1
    i2
  else
    1000

/-! ## Lowercasing and substring search (strings.ToLower, strings.Contains) -/

/-- ASCII lowercasing of one character: an upper-case ASCII letter (code 65
to 90) is shifted up by 32, anything else is unchanged.  This models the Go
strings.ToLower on the character range that the sources ever compare
against (all match targets in the code are ASCII). -/
def goLowerChar (c : Char) : Char :=
  if 65 ≤ c.toNat ∧ c.toNat ≤ 90 then Char.ofNat (c.toNat + 32) else c

/-- Model of strings.ToLower: lowercase every character of the string. -/
def goToLower (s : String) : String :=
  String.mk (s.data.map goLowerChar)

/-- Character-list test that the second list is an initial segment of the
first, used to model substring search. -/
def startsWithCh : List Char → List Char → Bool
  | _, [] => true
  | [], _ :: _ => false
  | a :: as, b :: bs => a == b && startsWithCh as bs

/-- Character-list substring test: the needle occurs contiguously inside the
haystack.  Models Go strings.Contains (which is true for an empty needle). -/
def containsCh : List Char → List Char → Bool
  | [], needle => needle.isEmpty
  | a :: rest, needle => startsWithCh (a :: rest) needle || containsCh rest needle

/-- String-level substring test built on containsCh. -/
def strContains (hay needle : String) : Bool :=
  containsCh hay.data needle.data

/-! ## Process records and sorting (src/main.go, ProcessInfo and
sortProcessesBy) -/

/-- Embedding of the Go ProcessInfo struct.  CPUPercent (float64) and
MemoryPercent (float32) are modelled on Int since the code only compares
them. -/
structure ProcessInfo where
  pid : Int
  name : String
  status : String
  cpuPercent : Int
  memoryRSS : Nat
  memoryVMS : Nat
  memoryPercent : Int
  createTime : Int
  numThreads : Int
  username : String
  cmdline : List String
deriving DecidableEq

/-- Result envelope of the process tool, mirroring ProcessInfoResult. -/
structure ProcessInfoResult where
  processes : List ProcessInfo
  count : Nat
deriving DecidableEq

/-- Comparison used by the memory sort branch: strictly greater memory
percent first. -/
def ltMem (a b : ProcessInfo) : Bool :=
  b.memoryPercent < a.memoryPercent

/-- Comparison used by the pid sort branch: strictly smaller pid first. -/
def ltPid (a b : ProcessInfo) : Bool :=
  a.pid < b.pid

/-- Comparison used by the name sort branch: lexicographically smaller name
first. -/
def ltName (a b : ProcessInfo) : Bool :=
  a.name < b.name

/-- Comparison used by the default (cpu) sort branch: strictly greater cpu
percent first. -/
def ltCpu (a b : ProcessInfo) : Bool :=
  b.cpuPercent < a.cpuPercent

/-- Insertion step of a stable sort with a strict less-than test: the new
element is placed before the first element that is not strictly less than
it, so it lands before every element it ties with that was later in the
original list. -/
def insertLt (lt : ProcessInfo → ProcessInfo → Bool) (x : ProcessInfo) :
    List ProcessInfo → List ProcessInfo
  | [] => [x]
  | y :: ys => if lt y x then y :: insertLt lt x ys else x :: y :: ys

/-- Stable sort by a strict less-than test, modelling sort.SliceStable:
elements are taken from the front of the list (the earliest original
position last inserted), and insertLt keeps each element ahead of its later
ties. -/
def sliceStable (lt : ProcessInfo → ProcessInfo → Bool) :
    List ProcessInfo → List ProcessInfo
  | [] => []
  | x :: xs => insertLt lt x (sliceStable lt xs)

/-- Embedding of sortProcessesBy (src/main.go lines 571-582): the sort key
is lowercased, then memory, pid and name select their stable orders and
every other key, the empty string and cpu included, selects the descending
cpu order. -/
def sortProcessesBy (l : List ProcessInfo) (sortBy : String) :
    List ProcessInfo :=
  let key := goToLower sortBy
  if key = "memory" then sliceStable ltMem l
  else if key = "pid" then sliceStable ltPid l
  else if key = "name" then sliceStable ltName l
  else sliceStable ltCpu l

/-! ## Process tool (src/main.go, getProcessInfo lines 483-527) -/

/-- Boolean success test on an Except value. -/
def exOk : Except String ProcessInfo → Bool
  | .ok _ => true
  | .error _ => false

/-- Embedding of the two sequential limit adjustments at the top of
getProcessInfo: a non-positive limit becomes the default 10, then a limit
above 200 becomes 200. -/
def effLimit (limit : Int) : Int :=
  let l1 := if limit ≤ 0 then 10 else limit
  if l1 > 200 then 200 else l1

/-- Embedding of the enumeration loop of getProcessInfo: each entry of the
process table is the outcome of per-process detail collection (an Except);
an errored entry is skipped, an entry failing the lowercased substring name
filter is skipped, and the loop stops early once twice the limit many
records have been gathered. -/
def gatherProcs (name : String) (limit : Int) :
    List (Except String ProcessInfo) → List ProcessInfo → List ProcessInfo
  | [], acc => acc
  | .error _ :: rest, acc => gatherProcs name limit rest acc
  | .ok info :: rest, acc =>
    if name ≠ "" ∧
        containsCh (goToLower info.name).data (goToLower name).data = false then
      gatherProcs name limit rest acc
    else
      if limit * 2 ≤ ((acc ++ [info]).length : Int) then acc ++ [info]
      else gatherProcs name limit rest (acc ++ [info])

/-- Embedding of the tail of getProcessInfo (lines 521-526): the sorted list
is truncated to the limit when it is longer, and the record count is the
length of what remains. -/
def finishList (l : List ProcessInfo) (lim : Int) : ProcessInfoResult :=
  if lim < (l.length : Int) then ⟨l.take lim.toNat, (l.take lim.toNat).length⟩
  else ⟨l, l.length⟩

/-- Embedding of getProcessInfo.  The oracle pidLookup is the combined
outcome of process.NewProcess plus detail collection for an explicit pid;
the oracle procs lists the outcome of detail collection for each process
reported by the system enumeration, in enumeration order.  After the limit
adjustments, an explicit positive pid returns the single looked-up record
or the propagated error; otherwise the enumeration loop gathers records,
the list is sorted by the requested key and truncated to the limit. -/
def getProcessInfo (pidLookup : Except String ProcessInfo)
    (procs : List (Except String ProcessInfo))
    (pid : Int) (name : String) (limit : Int) (sortBy : String) :
    Except String ProcessInfoResult :=
  if 0 < pid then
    match pidLookup with
    | .error e => .error e
    | .ok info => .ok ⟨[info], [info].length⟩
  else
    .ok (finishList
      (sortProcessesBy (gatherProcs name (effLimit limit) procs []) sortBy)
      (effLimit limit))

/-! ## Disk tool (src/main.go, getDiskInfo lines 412-456) -/

/-- Usage statistics returned by the disk.Usage oracle, mirroring the fields
getDiskInfo copies from gopsutil UsageStat. -/
structure UsageStat where
  fstype : String
  total : Nat
  free : Nat
  used : Nat
  usedPercent : Int
  inodesTotal : Nat
  inodesUsed : Nat
  inodesFree : Nat
deriving DecidableEq

/-- One mounted partition as returned by the disk.Partitions oracle. -/
structure Partition where
  device : String
  mountpoint : String
  fstype : String
deriving DecidableEq

/-- Embedding of the Go DiskInfo record. -/
structure DiskInfo where
  device : String
  mountpoint : String
  fstype : String
  total : Nat
  free : Nat
  used : Nat
  usedPercent : Int
  inodesTotal : Nat
  inodesUsed : Nat
  inodesFree : Nat
deriving DecidableEq

/-- Result envelope of the disk tool, mirroring DiskInfoResult. -/
structure DiskInfoResult where
  disks : List DiskInfo
deriving DecidableEq

/-- Record built in the all-partitions branch of getDiskInfo for a partition
whose usage query succeeded. -/
def mkDiskOfPartition (p : Partition) (u : UsageStat) : DiskInfo :=
  { device := p.device
    mountpoint := p.mountpoint
    fstype := p.fstype
    total := u.total
    free := u.free
    used := u.used
    usedPercent := u.usedPercent
    inodesTotal := u.inodesTotal
    inodesUsed := u.inodesUsed
    inodesFree := u.inodesFree }

/-- Embedding of the all-partitions loop of getDiskInfo: a partition whose
usage query errors is skipped, every other partition contributes one
record. -/
def collectDisks (usage : String → Except String UsageStat) :
    List Partition → List DiskInfo
  | [] => []
  | p :: ps =>
    match usage p.mountpoint with
    | .error _ => collectDisks usage ps
    | .ok u => mkDiskOfPartition p u :: collectDisks usage ps

/-- Record built in the specific-path branch of getDiskInfo: the device is
unknown there, so the code stores the fixed string N/A. -/
def mkDiskOfPath (path : String) (u : UsageStat) : DiskInfo :=
  { device := "N/A"
    mountpoint := path
    fstype := u.fstype
    total := u.total
    free := u.free
    used := u.used
    usedPercent := u.usedPercent
    inodesTotal := u.inodesTotal
    inodesUsed := u.inodesUsed
    inodesFree := u.inodesFree }

/-- Embedding of getDiskInfo.  The oracle usage maps a path to the outcome
of disk.Usage on it; the oracle partitions is the outcome of
disk.Partitions.  A non-empty path queries that path only and on success
yields one record whose device is the fixed string N/A; an empty path
enumerates the partitions and collects one record per successful usage
query. -/
def getDiskInfo (usage : String → Except String UsageStat)
    (partitions : Except String (List Partition)) (path : String) :
    Except String DiskInfoResult :=
  if path ≠ "" then
    match usage path with
    | .error e => .error ("failed to get disk usage for " ++ path ++ ": " ++ e)
    | .ok u => .ok ⟨[mkDiskOfPath path u]⟩
  else
    match partitions with
    | .error e => .error ("failed to get disk partitions: " ++ e)
    | .ok parts => .ok ⟨collectDisks usage parts⟩

/-! ## Network tool (src/main.go, getNetworkInfo lines 458-481) -/

/-- Per-interface counters returned by the net.IOCounters oracle. -/
structure NetStat where
  name : String
  bytesSent : Nat
  bytesRecv : Nat
  packetsSent : Nat
  packetsRecv : Nat
  errin : Nat
  errout : Nat
  dropin : Nat
  dropout : Nat
deriving DecidableEq

/-- Embedding of the Go NetworkInfo record. -/
structure NetworkInfo where
  interface : String
  bytesSent : Nat
  bytesRecv : Nat
  packetsSent : Nat
  packetsRecv : Nat
  errin : Nat
  errout : Nat
  dropin : Nat
  dropout : Nat
deriving DecidableEq

/-- Result envelope of the network tool, mirroring NetworkInfoResult. -/
structure NetworkInfoResult where
  interfaces : List NetworkInfo
deriving DecidableEq

/-- Record built by getNetworkInfo from one counter row. -/
def mkNet (s : NetStat) : NetworkInfo :=
  { interface := s.name
    bytesSent := s.bytesSent
    bytesRecv := s.bytesRecv
    packetsSent := s.packetsSent
    packetsRecv := s.packetsRecv
    errin := s.errin
    errout := s.errout
    dropin := s.dropin
    dropout := s.dropout }

/-- Embedding of the filtering loop of getNetworkInfo: with a non-empty
filter, a row whose name differs from the filter is skipped; every kept row
contributes one record. -/
def collectNet (iface : String) : List NetStat → List NetworkInfo
  | [] => []
  | s :: rest =>
    if iface ≠ "" ∧ s.name ≠ iface then collectNet iface rest
    else mkNet s :: collectNet iface rest

/-- Embedding of getNetworkInfo.  The oracle stats is the outcome of
net.IOCounters per interface. -/
def getNetworkInfo (stats : Except String (List NetStat)) (iface : String) :
    Except String NetworkInfoResult :=
  match stats with
  | .error e => .error ("failed to get network stats: " ++ e)
  | .ok l => .ok ⟨collectNet iface l⟩

/-! ## HTTP JSON-RPC dispatch (src/unnamed/part_000, handleMCPRequest
lines 75-225) -/

/-- JSON identifier value carried in the id field of a request; none models
an absent id, which Go decodes to nil and re-encodes as null. -/
inductive JsonId where
  | num : Int → JsonId
  | str : String → JsonId
deriving DecidableEq

/-- Parsed JSON-RPC request body, mirroring the Go MCPRequest struct. -/
structure MCPRequest where
  jsonrpc : String
  id : Option JsonId
  method : String
deriving DecidableEq

/-- JSON-RPC error object as built by handleMCPRequest. -/
structure MCPErrorObj where
  code : Int
  message : String
deriving DecidableEq

/-- Abstract tag for the successful result payloads of the three supported
methods. -/
inductive RpcResult where
  | initRes : RpcResult
  | listRes : RpcResult
  | callRes : RpcResult
deriving DecidableEq

/-- JSON-RPC response as encoded by handleMCPRequest, mirroring the Go
MCPResponse struct: jsonrpc and id always present, at most one of result
and error set. -/
structure MCPResponse where
  jsonrpc : String
  id : Option JsonId
  result : Option RpcResult
  error : Option MCPErrorObj
deriving DecidableEq

/-- Embedding of the method dispatch and response construction of
handleMCPRequest for a well-formed POST body already parsed into req.  The
oracle toolCall is the outcome of handleToolCall for the tools slash call
method.  The three supported methods produce a result; any other method
produces the unknown-method error; the response always carries jsonrpc 2.0,
echoes the request id, and on error sets code -32601 with the error text
and leaves the result unset. -/
def handleMCPRequest (toolCall : Except String Unit) (req : MCPRequest) :
    MCPResponse :=
  let outcome : Except String RpcResult :=
    if req.method = "initialize" then .ok .initRes
    else if req.method = "tools/list" then .ok .listRes
    else if req.method = "tools/call" then
      match toolCall with
      | .ok _ => .ok .callRes
      | .error e => .error e
    else .error ("unknown method: " ++ req.method)
  match outcome with
  | .ok r => { jsonrpc := "2.0", id := req.id, result := some r, error := none }
  | .error e =>
    { jsonrpc := "2.0", id := req.id, result := none,
      error := some { code := -32601, message := e } }

/-! ## Property vocabulary: orders, tie classes and success tests used to
state the claims -/

/-- Non-decreasing pid order between two records. -/
def pidLe (a b : ProcessInfo) : Prop :=
  a.pid ≤ b.pid

/-- Non-decreasing lexicographic name order between two records. -/
def nameLe (a b : ProcessInfo) : Prop :=
  a.name ≤ b.name

/-- Non-increasing memory percent order between two records. -/
def memGe (a b : ProcessInfo) : Prop :=
  b.memoryPercent ≤ a.memoryPercent

/-- Non-increasing cpu percent order between two records. -/
def cpuGe (a b : ProcessInfo) : Prop :=
  b.cpuPercent ≤ a.cpuPercent

/-- Tie class of a given pid value. -/
def pidEq (v : Int) (r : ProcessInfo) : Bool :=
  r.pid == v

/-- Tie class of a given name value. -/
def nameEq (nm : String) (r : ProcessInfo) : Bool :=
  r.name == nm

/-- Tie class of a given memory percent value. -/
def memEq (v : Int) (r : ProcessInfo) : Bool :=
  r.memoryPercent == v

/-- Tie class of a given cpu percent value. -/
def cpuEq (v : Int) (r : ProcessInfo) : Bool :=
  r.cpuPercent == v

/-- Counter row matching a requested interface name exactly. -/
def netEq (iface : String) (s : NetStat) : Bool :=
  s.name == iface

/-- Boolean success test on a disk usage outcome. -/
def exOkU : Except String UsageStat → Bool
  | .ok _ => true
  | .error _ => false

/-- Boolean success test on a process tool outcome. -/
def exOkR : Except String ProcessInfoResult → Bool
  | .ok _ => true
  | .error _ => false

/-- Boolean success test on a network tool outcome. -/
def exOkN : Except String NetworkInfoResult → Bool
  | .ok _ => true
  | .error _ => false

/-! ## Concrete fixtures used by witness theorems -/

/-- Concrete usage statistics row. -/
def uFix : UsageStat :=
  { fstype := "ext4", total := 1000, free := 400, used := 600,
    usedPercent := 60, inodesTotal := 50, inodesUsed := 20, inodesFree := 30 }

/-- Concrete usage oracle answering only the root path. -/
def usageFix : String → Except String UsageStat
  | "/" => .ok uFix
  | _ => .error "no such mount"

/-- Concrete process record. -/
def prFix1 : ProcessInfo :=
  { pid := 5, name := "bash", status := "S", cpuPercent := 30,
    memoryRSS := 10, memoryVMS := 20, memoryPercent := 7,
    createTime := 0, numThreads := 1, username := "root", cmdline := [] }

/-- Concrete process record tying with prFix1 on memory percent. -/
def prFix2 : ProcessInfo :=
  { pid := 3, name := "zsh", status := "R", cpuPercent := 40,
    memoryRSS := 11, memoryVMS := 21, memoryPercent := 7,
    createTime := 0, numThreads := 2, username := "root", cmdline := [] }

/-- Concrete process list. -/
def lFix : List ProcessInfo :=
  [prFix1, prFix2]

/-- Concrete counter row for a first interface. -/
def nFix1 : NetStat :=
  { name := "eth0", bytesSent := 1, bytesRecv := 2, packetsSent := 3,
    packetsRecv := 4, errin := 0, errout := 0, dropin := 0, dropout := 0 }

/-- Concrete counter row for a second interface. -/
def nFix2 : NetStat :=
  { name := "lo", bytesSent := 9, bytesRecv := 8, packetsSent := 7,
    packetsRecv := 6, errin := 1, errout := 1, dropin := 1, dropout := 1 }

/-- Concrete request with an unsupported method. -/
def reqFix : MCPRequest :=
  { jsonrpc := "2.0", id := none, method := "totally_unknown" }

/-! ## Helper lemmas -/

/-- Lowercasing one character is idempotent: a lowered character is never an
upper-case ASCII letter. -/
theorem goLowerChar_idem (c : Char) : goLowerChar (goLowerChar c) = goLowerChar c := by
  by_cases h : 65 ≤ c.toNat ∧ c.toNat ≤ 90
  · have hv : Nat.isValidChar (c.toNat + 32) := Or.inl (by omega)
    have ht : (Char.ofNat (c.toNat + 32)).toNat = c.toNat + 32 := by
      simp [Char.ofNat, hv]
      rfl
    have h1 : goLowerChar c = Char.ofNat (c.toNat + 32) := by
      simp only [goLowerChar, if_pos h]
    have h2 : goLowerChar (Char.ofNat (c.toNat + 32)) = Char.ofNat (c.toNat + 32) := by
      simp only [goLowerChar, ht]
      rw [if_neg]
      omega
    rw [h1, h2]
  · have h1 : goLowerChar c = c := by simp only [goLowerChar, if_neg h]
    rw [h1, h1]

/-- Lowercasing a string is idempotent. -/
theorem goToLower_idem (s : String) : goToLower (goToLower s) = goToLower s := by
  have hfun : goLowerChar ∘ goLowerChar = goLowerChar := funext goLowerChar_idem
  show String.mk ((s.data.map goLowerChar).map goLowerChar)
      = String.mk (s.data.map goLowerChar)
  rw [List.map_map, hfun]

/-- Every character list is an initial segment of itself. -/
theorem startsWithCh_self (l : List Char) : startsWithCh l l = true := by
  induction l with
  | nil => rfl
  | cons a as ih => simp [startsWithCh, ih]

/-- A character list occurs as a substring at the end of any extension of
itself on the left. -/
theorem containsCh_append_self (pre l : List Char) :
    containsCh (pre ++ l) l = true := by
  induction pre with
  | nil =>
    cases l with
    | nil => rfl
    | cons a as => simp [containsCh, startsWithCh_self]
  | cons a pre ih => simp [containsCh, ih]

/-- A string built by prefixing a needle contains that needle. -/
theorem strContains_append (pre m : String) : strContains (pre ++ m) m = true := by
  show containsCh (pre ++ m).data m.data = true
  rw [String.data_append]
  exact containsCh_append_self pre.data m.data

/-! ## Claim C1 -/

/-- C1 counterexample: a well-formed blob carrying refreshInterval 20000 is
not clamped to the nearest bound 10000 by parseConfig; the claim as stated
fails at this input. -/
theorem C1_clamp_counterexample :
    (parseConfig { refreshInterval := 20000, enableDebug := true }).refreshInterval
      ≠ specClampedInterval 20000 := by
  decide

/-- C1 amended: parseConfig replaces an out-of-range refreshInterval by the
default 1000 rather than the nearest bound, keeps an in-range value
unchanged, and takes the debug flag as given. -/
theorem C1_config_update (c d : ServerConfig)
    (hout : c.refreshInterval < 100 ∨ 10000 < c.refreshInterval)
    (hin1 : 100 ≤ d.refreshInterval) (hin2 : d.refreshInterval ≤ 10000) :
    (parseConfig c).refreshInterval = 1000 ∧
    (parseConfig c).enableDebug = c.enableDebug ∧
    parseConfig d = d := by
  have hc : c.refreshInterval < 100 ∨ c.refreshInterval > 10000 := hout
  have hd : ¬(d.refreshInterval < 100 ∨ d.refreshInterval > 10000) := by omega
  refine ⟨?_, ?_, ?_⟩
  · simp only [parseConfig, if_pos hc]
  · simp only [parseConfig, if_pos hc]
  · simp only [parseConfig, if_neg hd]

/-- C1 witness: the amended behavior at concrete configurations 20000 and
500. -/
theorem C1_config_update_witness :
    (parseConfig { refreshInterval := 20000, enableDebug := true }).refreshInterval = 1000 ∧
    (parseConfig { refreshInterval := 20000, enableDebug := true }).enableDebug = true ∧
    parseConfig { refreshInterval := 500, enableDebug := false }
      = { refreshInterval := 500, enableDebug := false } :=
  C1_config_update { refreshInterval := 20000, enableDebug := true }
    { refreshInterval := 500, enableDebug := false }
    (by decide) (by decide) (by decide)

/-! ## Claim C5 -/

/-- C5: the effective cpu sampling interval is clamped into [100,10000] for
every positive argument, with values below 100 raised to 100, values above
10000 lowered to 10000, in-range values kept, non-positive arguments
falling back to the default 1000, and the extreme inputs 1 and 1000000
mapping to 100 and 10000. -/
theorem C5_cpu_interval_clamped (i j k m : Int)
    (hi1 : 0 < i) (hi2 : i < 100) (hj : 10000 < j) (hk : k ≤ 0)
    (hm1 : 100 ≤ m) (hm2 : m ≤ 10000) :
    cpuSamplingIntervalMs i = 100 ∧
    cpuSamplingIntervalMs j = 10000 ∧
    cpuSamplingIntervalMs k = 1000 ∧
    cpuSamplingIntervalMs m = m ∧
    100 ≤ cpuSamplingIntervalMs i ∧ cpuSamplingIntervalMs i ≤ 10000 ∧
    100 ≤ cpuSamplingIntervalMs j ∧ cpuSamplingIntervalMs j ≤ 10000 ∧
    100 ≤ cpuSamplingIntervalMs m ∧ cpuSamplingIntervalMs m ≤ 10000 ∧
    cpuSamplingIntervalMs 1 = 100 ∧
    cpuSamplingIntervalMs 1000000 = 10000 := by
  have hall : ∀ n : Int, 0 < n →
      cpuSamplingIntervalMs n
        = if n < 100 then 100 else if n > 10000 then 10000 else n := by
    intro n hn
    simp only [cpuSamplingIntervalMs, if_pos hn]
    split_ifs <;> omega
  have hi := hall i hi1
  have hj2 := hall j (by omega)
  have hm := hall m (by omega)
  have hkv : cpuSamplingIntervalMs k = 1000 := by
    simp only [cpuSamplingIntervalMs]
    rw [if_neg (by omega)]
  refine ⟨?_, ?_, hkv, ?_, ?_, ?_, ?_, ?_, ?_, ?_, by decide, by decide⟩
  all_goals
    first
      | (rw [hi]; split_ifs
         all_goals omega)
      | (rw [hj2]; split_ifs
         all_goals omega)
      | (rw [hm]; split_ifs
         all_goals omega)

/-- C5 witness: the clamping at concrete intervals 50, 20000, 0 and 1000. -/
theorem C5_cpu_interval_clamped_witness :
    cpuSamplingIntervalMs 50 = 100 ∧
    cpuSamplingIntervalMs 20000 = 10000 ∧
    cpuSamplingIntervalMs 0 = 1000 ∧
    cpuSamplingIntervalMs 1000 = 1000 ∧
    100 ≤ cpuSamplingIntervalMs 50 ∧ cpuSamplingIntervalMs 50 ≤ 10000 ∧
    100 ≤ cpuSamplingIntervalMs 20000 ∧ cpuSamplingIntervalMs 20000 ≤ 10000 ∧
    100 ≤ cpuSamplingIntervalMs 1000 ∧ cpuSamplingIntervalMs 1000 ≤ 10000 ∧
    cpuSamplingIntervalMs 1 = 100 ∧
    cpuSamplingIntervalMs 1000000 = 10000 :=
  C5_cpu_interval_clamped 50 20000 0 1000
    (by decide) (by decide) (by decide) (by decide) (by decide) (by decide)

/-! ## Claim C9 -/

/-- C9: a well-formed request whose method is none of the three supported
ones yields a response with jsonrpc 2.0, the request id echoed, no result,
and an error object with code -32601 whose message contains the offending
method name. -/
theorem C9_unknown_method (toolCall : Except String Unit) (req : MCPRequest)
    (h1 : req.method ≠ "initialize") (h2 : req.method ≠ "tools/list")
    (h3 : req.method ≠ "tools/call") :
    handleMCPRequest toolCall req =
      { jsonrpc := "2.0", id := req.id, result := none,
        error := some { code := -32601, message := "unknown method: " ++ req.method } } ∧
    strContains ("unknown method: " ++ req.method) req.method = true := by
  refine ⟨?_, strContains_append "unknown method: " req.method⟩
  simp only [handleMCPRequest, if_neg h1, if_neg h2, if_neg h3]

/-- C9 witness: the unknown-method response at the concrete method
totally_unknown. -/
theorem C9_unknown_method_witness :
    handleMCPRequest (Except.ok ()) reqFix =
      { jsonrpc := "2.0", id := reqFix.id, result := none,
        error := some { code := -32601, message := "unknown method: " ++ reqFix.method } } ∧
    strContains ("unknown method: " ++ reqFix.method) reqFix.method = true :=
  C9_unknown_method (Except.ok ()) reqFix (by decide) (by decide) (by decide)

/-! ## Sorting lemmas -/

/-- Every member of an insertion result is the inserted element or an
original member. -/
theorem mem_insertLt (lt : ProcessInfo → ProcessInfo → Bool) (x a : ProcessInfo)
    (l : List ProcessInfo) (h : a ∈ insertLt lt x l) : a = x ∨ a ∈ l := by
  induction l with
  | nil =>
    simp [insertLt] at h
    exact Or.inl h
  | cons y ys ih =>
    cases hyx : lt y x with
    | true =>
      have he : insertLt lt x (y :: ys) = y :: insertLt lt x ys := by
        simp [insertLt, hyx]
      rw [he] at h
      rcases List.mem_cons.mp h with h1 | h1
      · exact Or.inr (by rw [h1]; exact List.mem_cons_self _ _)
      · rcases ih h1 with h2 | h2
        · exact Or.inl h2
        · exact Or.inr (List.mem_cons_of_mem _ h2)
    | false =>
      have he : insertLt lt x (y :: ys) = x :: y :: ys := by
        simp [insertLt, hyx]
      rw [he] at h
      exact List.mem_cons.mp h

/-- Insertion into a list sorted by a strict weak order keeps it sorted. -/
theorem pairwise_insertLt (lt : ProcessInfo → ProcessInfo → Bool)
    (hasym : ∀ a b, lt a b = true → lt b a = false)
    (htrans : ∀ a b c, lt b a = false → lt c b = false → lt c a = false)
    (x : ProcessInfo) (l : List ProcessInfo)
    (h : l.Pairwise fun a b => lt b a = false) :
    (insertLt lt x l).Pairwise fun a b => lt b a = false := by
  induction l with
  | nil => simp [insertLt]
  | cons y ys ih =>
    rcases List.pairwise_cons.mp h with ⟨hy, hys⟩
    cases hyx : lt y x with
    | true =>
      simp only [insertLt, hyx, if_true]
      refine List.pairwise_cons.mpr ⟨?_, ih hys⟩
      intro z hz
      rcases mem_insertLt lt x z ys hz with rfl | hz2
      · exact hasym y z hyx
      · exact hy z hz2
    | false =>
      simp only [insertLt, hyx, if_false]
      refine List.pairwise_cons.mpr ⟨?_, h⟩
      intro z hz
      rcases List.mem_cons.mp hz with rfl | hz2
      · exact hyx
      · exact htrans x y z hyx (hy z hz2)

/-- The stable sort sorts: its output is pairwise ordered under the
complement of the strict comparison. -/
theorem pairwise_sliceStable (lt : ProcessInfo → ProcessInfo → Bool)
    (hasym : ∀ a b, lt a b = true → lt b a = false)
    (htrans : ∀ a b c, lt b a = false → lt c b = false → lt c a = false)
    (l : List ProcessInfo) :
    (sliceStable lt l).Pairwise fun a b => lt b a = false := by
  induction l with
  | nil => simp [sliceStable]
  | cons x xs ih =>
    simp only [sliceStable]
    exact pairwise_insertLt lt hasym htrans x (sliceStable lt xs) ih

/-- Inserting an element of a tie class places it at the head of that class:
the class members already present all came later in the original list and
none of them is strictly below the new element. -/
theorem filter_insertLt_pos (lt : ProcessInfo → ProcessInfo → Bool)
    (p : ProcessInfo → Bool) (x : ProcessInfo) (hx : p x = true)
    (hall : ∀ z, p z = true → lt z x = false) (l : List ProcessInfo) :
    (insertLt lt x l).filter p = x :: l.filter p := by
  induction l with
  | nil => simp [insertLt, hx]
  | cons y ys ih =>
    cases hyx : lt y x with
    | false => simp [insertLt, hyx, hx]
    | true =>
      have hpy : p y = false := by
        cases hpy : p y with
        | false => rfl
        | true =>
          have h1 := hall y hpy
          rw [hyx] at h1
          cases h1
      simp [insertLt, hyx, List.filter_cons, hpy, ih]

/-- Inserting an element outside a class leaves the class unchanged. -/
theorem filter_insertLt_neg (lt : ProcessInfo → ProcessInfo → Bool)
    (p : ProcessInfo → Bool) (x : ProcessInfo) (hx : p x = false)
    (l : List ProcessInfo) :
    (insertLt lt x l).filter p = l.filter p := by
  induction l with
  | nil => simp [insertLt, hx]
  | cons y ys ih =>
    cases hyx : lt y x with
    | false => simp [insertLt, hyx, hx]
    | true => simp [insertLt, hyx, List.filter_cons, ih]

/-- Stability of the sort: a class of mutually unordered elements keeps its
original relative order. -/
theorem filter_sliceStable (lt : ProcessInfo → ProcessInfo → Bool)
    (p : ProcessInfo → Bool)
    (hp : ∀ a b, p a = true → p b = true → lt a b = false)
    (l : List ProcessInfo) :
    (sliceStable lt l).filter p = l.filter p := by
  induction l with
  | nil => rfl
  | cons x xs ih =>
    cases hx : p x with
    | true =>
      simp only [sliceStable]
      rw [filter_insertLt_pos lt p x hx (fun z hz => hp z x hz hx) (sliceStable lt xs), ih]
      simp [List.filter_cons, hx]
    | false =>
      simp only [sliceStable]
      rw [filter_insertLt_neg lt p x hx (sliceStable lt xs), ih]
      simp [List.filter_cons, hx]

/-- Asymmetry of the pid comparison. -/
theorem ltPid_asym (a b : ProcessInfo) (h : ltPid a b = true) : ltPid b a = false := by
  simp only [ltPid, decide_eq_true_eq] at h
  simp only [ltPid, decide_eq_false_iff_not]
  omega

/-- Transitivity of the complement of the pid comparison. -/
theorem ltPid_letrans (a b c : ProcessInfo) (h1 : ltPid b a = false)
    (h2 : ltPid c b = false) : ltPid c a = false := by
  simp only [ltPid, decide_eq_false_iff_not] at h1 h2 ⊢
  omega

/-- Asymmetry of the name comparison. -/
theorem ltName_asym (a b : ProcessInfo) (h : ltName a b = true) : ltName b a = false := by
  simp only [ltName, decide_eq_true_eq] at h
  simp only [ltName, decide_eq_false_iff_not]
  exact lt_asymm h

/-- Transitivity of the complement of the name comparison. -/
theorem ltName_letrans (a b c : ProcessInfo) (h1 : ltName b a = false)
    (h2 : ltName c b = false) : ltName c a = false := by
  simp only [ltName, decide_eq_false_iff_not, not_lt] at h1 h2 ⊢
  exact le_trans h1 h2

/-- Asymmetry of the memory comparison. -/
theorem ltMem_asym (a b : ProcessInfo) (h : ltMem a b = true) : ltMem b a = false := by
  simp only [ltMem, decide_eq_true_eq] at h
  simp only [ltMem, decide_eq_false_iff_not]
  omega

/-- Transitivity of the complement of the memory comparison. -/
theorem ltMem_letrans (a b c : ProcessInfo) (h1 : ltMem b a = false)
    (h2 : ltMem c b = false) : ltMem c a = false := by
  simp only [ltMem, decide_eq_false_iff_not] at h1 h2 ⊢
  omega

/-- Asymmetry of the cpu comparison. -/
theorem ltCpu_asym (a b : ProcessInfo) (h : ltCpu a b = true) : ltCpu b a = false := by
  simp only [ltCpu, decide_eq_true_eq] at h
  simp only [ltCpu, decide_eq_false_iff_not]
  omega

/-- Transitivity of the complement of the cpu comparison. -/
theorem ltCpu_letrans (a b c : ProcessInfo) (h1 : ltCpu b a = false)
    (h2 : ltCpu c b = false) : ltCpu c a = false := by
  simp only [ltCpu, decide_eq_false_iff_not] at h1 h2 ⊢
  omega

/-- The pid key selects the pid order. -/
theorem sortProcessesBy_pid (l : List ProcessInfo) :
    sortProcessesBy l "pid" = sliceStable ltPid l := by
  have h : goToLower "pid" = "pid" := by decide
  simp [sortProcessesBy, h]

/-- The name key selects the name order. -/
theorem sortProcessesBy_name (l : List ProcessInfo) :
    sortProcessesBy l "name" = sliceStable ltName l := by
  have h : goToLower "name" = "name" := by decide
  simp [sortProcessesBy, h]

/-- The memory key selects the memory order. -/
theorem sortProcessesBy_memory (l : List ProcessInfo) :
    sortProcessesBy l "memory" = sliceStable ltMem l := by
  have h : goToLower "memory" = "memory" := by decide
  simp [sortProcessesBy, h]

/-- Every other key, cpu and the empty key included, selects the descending
cpu order. -/
theorem sortProcessesBy_default (l : List ProcessInfo) (s : String)
    (hs1 : goToLower s ≠ "memory") (hs2 : goToLower s ≠ "pid")
    (hs3 : goToLower s ≠ "name") :
    sortProcessesBy l s = sliceStable ltCpu l := by
  simp only [sortProcessesBy]
  rw [if_neg hs1, if_neg hs2, if_neg hs3]

/-! ## Claim C4 -/

/-- C4: sorting with key pid yields records non-decreasing by pid, name
non-decreasing lexicographically, memory non-increasing by memory percent,
and any key that lowercases to none of these three (cpu, the empty string
and every unrecognized key) non-increasing by cpu percent; and each sort is
stable, every tie class keeping its original relative order. -/
theorem C4_sort_orders (l : List ProcessInfo) (s : String)
    (hs1 : goToLower s ≠ "memory") (hs2 : goToLower s ≠ "pid")
    (hs3 : goToLower s ≠ "name")
    (v : Int) (nm : String) (mv cv : Int) :
    (sortProcessesBy l "pid").Pairwise pidLe ∧
    (sortProcessesBy l "name").Pairwise nameLe ∧
    (sortProcessesBy l "memory").Pairwise memGe ∧
    (sortProcessesBy l s).Pairwise cpuGe ∧
    (sortProcessesBy l "pid").filter (pidEq v) = l.filter (pidEq v) ∧
    (sortProcessesBy l "name").filter (nameEq nm) = l.filter (nameEq nm) ∧
    (sortProcessesBy l "memory").filter (memEq mv) = l.filter (memEq mv) ∧
    (sortProcessesBy l s).filter (cpuEq cv) = l.filter (cpuEq cv) := by
  rw [sortProcessesBy_pid, sortProcessesBy_name, sortProcessesBy_memory,
    sortProcessesBy_default l s hs1 hs2 hs3]
  refine ⟨?_, ?_, ?_, ?_, ?_, ?_, ?_, ?_⟩
  · refine (pairwise_sliceStable ltPid ltPid_asym ltPid_letrans l).imp ?_
    intro a b hab
    simp only [ltPid, decide_eq_false_iff_not, not_lt] at hab
    exact hab
  · refine (pairwise_sliceStable ltName ltName_asym ltName_letrans l).imp ?_
    intro a b hab
    simp only [ltName, decide_eq_false_iff_not, not_lt] at hab
    exact hab
  · refine (pairwise_sliceStable ltMem ltMem_asym ltMem_letrans l).imp ?_
    intro a b hab
    simp only [ltMem, decide_eq_false_iff_not, not_lt] at hab
    exact hab
  · refine (pairwise_sliceStable ltCpu ltCpu_asym ltCpu_letrans l).imp ?_
    intro a b hab
    simp only [ltCpu, decide_eq_false_iff_not, not_lt] at hab
    exact hab
  · refine filter_sliceStable ltPid (pidEq v) ?_ l
    intro a b ha hb
    simp only [pidEq, beq_iff_eq] at ha hb
    simp only [ltPid, decide_eq_false_iff_not]
    omega
  · refine filter_sliceStable ltName (nameEq nm) ?_ l
    intro a b ha hb
    simp only [nameEq, beq_iff_eq] at ha hb
    simp only [ltName, decide_eq_false_iff_not, ha, hb]
    exact lt_irrefl nm
  · refine filter_sliceStable ltMem (memEq mv) ?_ l
    intro a b ha hb
    simp only [memEq, beq_iff_eq] at ha hb
    simp only [ltMem, decide_eq_false_iff_not]
    omega
  · refine filter_sliceStable ltCpu (cpuEq cv) ?_ l
    intro a b ha hb
    simp only [cpuEq, beq_iff_eq] at ha hb
    simp only [ltCpu, decide_eq_false_iff_not]
    omega

/-- C4 witness: the sort orders and the tie preservation at a concrete
two-record list and the unrecognized key WeIrD. -/
theorem C4_sort_orders_witness :
    (sortProcessesBy lFix "pid").Pairwise pidLe ∧
    (sortProcessesBy lFix "name").Pairwise nameLe ∧
    (sortProcessesBy lFix "memory").Pairwise memGe ∧
    (sortProcessesBy lFix "WeIrD").Pairwise cpuGe ∧
    (sortProcessesBy lFix "pid").filter (pidEq 3) = lFix.filter (pidEq 3) ∧
    (sortProcessesBy lFix "name").filter (nameEq "bash") = lFix.filter (nameEq "bash") ∧
    (sortProcessesBy lFix "memory").filter (memEq 7) = lFix.filter (memEq 7) ∧
    (sortProcessesBy lFix "WeIrD").filter (cpuEq 30) = lFix.filter (cpuEq 30) :=
  C4_sort_orders lFix "WeIrD" (by decide) (by decide) (by decide) 3 "bash" 7 30

/-! ## Claim C10 -/

/-- C10: sorting with any key gives the same result as sorting with its
lowercased key, because sortProcessesBy lowercases the key before
matching. -/
theorem C10_sort_key_case_insensitive (l : List ProcessInfo) (s : String) :
    sortProcessesBy l s = sortProcessesBy l (goToLower s) := by
  simp only [sortProcessesBy, goToLower_idem]

/-! ## Claim C2 -/

/-- Errored enumeration entries contribute nothing to the gathering loop:
running it on the table with the errored entries removed gives the same
result. -/
theorem gatherProcs_filter_errors (name : String) (limit : Int)
    (procs : List (Except String ProcessInfo)) (acc : List ProcessInfo) :
    gatherProcs name limit procs acc
      = gatherProcs name limit (procs.filter exOk) acc := by
  induction procs generalizing acc with
  | nil => rfl
  | cons r rest ih =>
    cases r with
    | error e =>
      have hf : List.filter exOk (Except.error e :: rest) = List.filter exOk rest := by
        simp [List.filter_cons, exOk]
      rw [hf]
      show gatherProcs name limit rest acc = _
      exact ih acc
    | ok info =>
      have hf : List.filter exOk (Except.ok info :: rest)
          = Except.ok info :: List.filter exOk rest := by
        simp [List.filter_cons, exOk]
      rw [hf]
      by_cases hc : name ≠ "" ∧
          containsCh (goToLower info.name).data (goToLower name).data = false
      · simp only [gatherProcs, if_pos hc]
        exact ih acc
      · simp only [gatherProcs, if_neg hc]
        by_cases ht : limit * 2 ≤ (((acc ++ [info]).length : Nat) : Int)
        · simp only [if_pos ht]
        · simp only [if_neg ht]
          exact ih (acc ++ [info])

/-- C2: in a process-info call without an explicit pid, a process whose
detail collection errored is silently skipped: the call returns the same
successful result as if the errored entries were absent from the
enumeration, and it never fails because of them. -/
theorem C2_errored_process_skipped (pidLookup : Except String ProcessInfo)
    (procs : List (Except String ProcessInfo)) (pid : Int) (name : String)
    (limit : Int) (sortBy : String) (hpid : pid ≤ 0) :
    getProcessInfo pidLookup procs pid name limit sortBy
      = getProcessInfo pidLookup (procs.filter exOk) pid name limit sortBy ∧
    exOkR (getProcessInfo pidLookup procs pid name limit sortBy) = true := by
  have hnp : ¬0 < pid := by omega
  constructor
  · simp only [getProcessInfo, if_neg hnp]
    rw [gatherProcs_filter_errors]
  · simp only [getProcessInfo, if_neg hnp]
    rfl

/-- C2 witness: a concrete enumeration with one vanished process gives the
same successful result as the enumeration without it. -/
theorem C2_errored_process_skipped_witness :
    getProcessInfo (Except.error "nope")
        [Except.ok prFix1, Except.error "vanished", Except.ok prFix2] 0 "" 10 "cpu"
      = getProcessInfo (Except.error "nope")
          ([Except.ok prFix1, Except.error "vanished", Except.ok prFix2].filter exOk)
          0 "" 10 "cpu" ∧
    exOkR (getProcessInfo (Except.error "nope")
        [Except.ok prFix1, Except.error "vanished", Except.ok prFix2] 0 "" 10 "cpu")
      = true :=
  C2_errored_process_skipped (Except.error "nope")
    [Except.ok prFix1, Except.error "vanished", Except.ok prFix2] 0 "" 10 "cpu"
    (by decide)

/-! ## Claim C3 -/

/-- The effective limit always lies in [1,200]. -/
theorem effLimit_bounds (limit : Int) : 1 ≤ effLimit limit ∧ effLimit limit ≤ 200 := by
  simp only [effLimit]
  split_ifs
  all_goals omega

/-- The truncation step never returns more records than the limit. -/
theorem finishList_length (l : List ProcessInfo) (lim : Int) (h : 1 ≤ lim) :
    ((finishList l lim).processes.length : Int) ≤ lim := by
  simp only [finishList]
  split_ifs with hlt
  · have h1 : (l.take lim.toNat).length ≤ lim.toNat := by
      rw [List.length_take]
      exact Nat.min_le_left _ _
    have h2 : ((l.take lim.toNat).length : Int) ≤ (lim.toNat : Int) := by
      exact_mod_cast h1
    have h3 : (lim.toNat : Int) = lim := Int.toNat_of_nonneg (by omega)
    rw [h3] at h2
    exact h2
  · simp only
    omega

/-- C3: the effective result limit is 10 for non-positive input, 200 for
input above 200 and the input itself inside [1,200]; and every successful
call returns at most the effective limit many records, hence at most
200. -/
theorem C3_limit_defaulting (pidLookup : Except String ProcessInfo)
    (procs : List (Except String ProcessInfo)) (pid : Int) (name : String)
    (limit : Int) (sortBy : String) (res : ProcessInfoResult)
    (hres : getProcessInfo pidLookup procs pid name limit sortBy = Except.ok res)
    (la lb lc : Int) (ha : la ≤ 0) (hb : 200 < lb) (hc1 : 1 ≤ lc) (hc2 : lc ≤ 200) :
    effLimit la = 10 ∧ effLimit lb = 200 ∧ effLimit lc = lc ∧
    (res.processes.length : Int) ≤ effLimit limit ∧
    res.processes.length ≤ 200 := by
  have hbnd := effLimit_bounds limit
  have hmain : (res.processes.length : Int) ≤ effLimit limit := by
    by_cases hp : 0 < pid
    · cases hplv : pidLookup with
      | error e =>
        simp only [getProcessInfo, if_pos hp, hplv] at hres
        cases hres
      | ok info =>
        simp only [getProcessInfo, if_pos hp, hplv, Except.ok.injEq] at hres
        rw [← hres]
        simpa using hbnd.1
    · simp only [getProcessInfo, if_neg hp, Except.ok.injEq] at hres
      rw [← hres]
      exact finishList_length _ _ hbnd.1
  refine ⟨?_, ?_, ?_, hmain, ?_⟩
  · simp only [effLimit]
    split_ifs
    all_goals omega
  · simp only [effLimit]
    split_ifs
    all_goals omega
  · simp only [effLimit]
    split_ifs
    all_goals omega
  · have := hbnd.2
    omega

/-- C3 witness: a concrete successful call with limit 0 returns two records,
within the effective limit 10, and the limit adjustments at -7, 1000 and
42. -/
theorem C3_limit_defaulting_witness :
    effLimit (-7) = 10 ∧ effLimit 1000 = 200 ∧ effLimit 42 = 42 ∧
    (((⟨[prFix2, prFix1], 2⟩ : ProcessInfoResult).processes.length : Int) ≤ effLimit 0) ∧
    (⟨[prFix2, prFix1], 2⟩ : ProcessInfoResult).processes.length ≤ 200 :=
  C3_limit_defaulting (Except.error "nope") [Except.ok prFix1, Except.ok prFix2]
    0 "" 0 "cpu" ⟨[prFix2, prFix1], 2⟩ (by rfl) (-7) 1000 42
    (by decide) (by decide) (by decide) (by decide)

/-! ## Claim C6 -/

/-- C6: a disk-info call with a non-empty path whose usage query succeeds
returns exactly one record, with the given path as its mountpoint and the
fixed device string N/A. -/
theorem C6_disk_specific_path (usage : String → Except String UsageStat)
    (partitions : Except String (List Partition)) (path : String) (u : UsageStat)
    (hpath : path ≠ "") (hu : usage path = Except.ok u) :
    getDiskInfo usage partitions path = Except.ok ⟨[mkDiskOfPath path u]⟩ ∧
    (mkDiskOfPath path u).mountpoint = path ∧
    (mkDiskOfPath path u).device = "N/A" := by
  refine ⟨?_, rfl, rfl⟩
  simp only [getDiskInfo, if_pos hpath, hu]

/-- C6 witness: the single-record result at the concrete root path. -/
theorem C6_disk_specific_path_witness :
    getDiskInfo usageFix (Except.error "none") "/" = Except.ok ⟨[mkDiskOfPath "/" uFix]⟩ ∧
    (mkDiskOfPath "/" uFix).mountpoint = "/" ∧
    (mkDiskOfPath "/" uFix).device = "N/A" :=
  C6_disk_specific_path usageFix (Except.error "none") "/" uFix (by decide) (by rfl)

/-! ## Claim C7 -/

/-- The all-partitions loop yields exactly one record per partition whose
usage query succeeds, in order. -/
theorem collectDisks_mountpoints (usage : String → Except String UsageStat)
    (ps : List Partition) :
    (collectDisks usage ps).map (fun d => d.mountpoint)
      = (ps.filter (fun p => exOkU (usage p.mountpoint))).map (fun p => p.mountpoint) := by
  induction ps with
  | nil => rfl
  | cons p ps ih =>
    cases hu : usage p.mountpoint with
    | error e => simp [collectDisks, hu, List.filter_cons, exOkU, ih]
    | ok u => simp [collectDisks, hu, List.filter_cons, exOkU, ih, mkDiskOfPartition]

/-- C7: a disk-info call with an empty path succeeds whenever the partition
enumeration succeeds, returning one record per partition whose usage query
succeeds, the erroring partitions being skipped rather than failing the
call. -/
theorem C7_disk_all_mounts (usage : String → Except String UsageStat)
    (ps : List Partition) :
    getDiskInfo usage (Except.ok ps) "" = Except.ok ⟨collectDisks usage ps⟩ ∧
    (collectDisks usage ps).map (fun d => d.mountpoint)
      = (ps.filter (fun p => exOkU (usage p.mountpoint))).map (fun p => p.mountpoint) := by
  refine ⟨?_, collectDisks_mountpoints usage ps⟩
  simp [getDiskInfo]

/-! ## Claim C8 -/

/-- An empty filter keeps every counter row. -/
theorem collectNet_all (stats : List NetStat) :
    collectNet "" stats = stats.map mkNet := by
  induction stats with
  | nil => rfl
  | cons s rest ih => simp [collectNet, ih]

/-- A non-empty filter keeps exactly the rows whose name matches it. -/
theorem collectNet_filter (iface : String) (hif : iface ≠ "") (stats : List NetStat) :
    collectNet iface stats = (stats.filter (netEq iface)).map mkNet := by
  induction stats with
  | nil => rfl
  | cons s rest ih =>
    by_cases hs : s.name = iface
    · have hcond : ¬(iface ≠ "" ∧ s.name ≠ iface) := by simp [hs]
      simp [collectNet, hcond, List.filter_cons, netEq, hs, ih]
    · have hcond : iface ≠ "" ∧ s.name ≠ iface := ⟨hif, hs⟩
      simp [collectNet, hcond, List.filter_cons, netEq, hs, ih]

/-- C8: a network-info call whose counter query succeeds returns every row
when the filter is empty and exactly the exactly-matching rows otherwise,
each returned record carrying the requested interface name; a filter
matching nothing yields zero records with a successful call. -/
theorem C8_network_filter (stats : List NetStat) (iface : String) (r : NetworkInfo)
    (hif : iface ≠ "") (hr : r ∈ collectNet iface stats)
    (stats2 : List NetStat) (hnone : stats2.filter (netEq iface) = []) :
    getNetworkInfo (Except.ok stats) iface = Except.ok ⟨collectNet iface stats⟩ ∧
    collectNet "" stats = stats.map mkNet ∧
    collectNet iface stats = (stats.filter (netEq iface)).map mkNet ∧
    r.interface = iface ∧
    collectNet iface stats2 = [] ∧
    exOkN (getNetworkInfo (Except.ok stats2) iface) = true := by
  have hfil := collectNet_filter iface hif stats
  refine ⟨rfl, collectNet_all stats, hfil, ?_, ?_, rfl⟩
  · rw [hfil] at hr
    rcases List.mem_map.mp hr with ⟨s, hs, hmk⟩
    have hmem := (List.mem_filter.mp hs).2
    have hname : s.name = iface := by simpa [netEq] using hmem
    rw [← hmk]
    simp [mkNet, hname]
  · rw [collectNet_filter iface hif stats2, hnone]
    rfl

/-- C8 witness: the filtering at a concrete two-interface table and the
empty result on a table without the requested interface. -/
theorem C8_network_filter_witness :
    getNetworkInfo (Except.ok [nFix1, nFix2]) "eth0"
      = Except.ok ⟨collectNet "eth0" [nFix1, nFix2]⟩ ∧
    collectNet "" [nFix1, nFix2] = [nFix1, nFix2].map mkNet ∧
    collectNet "eth0" [nFix1, nFix2] = ([nFix1, nFix2].filter (netEq "eth0")).map mkNet ∧
    (mkNet nFix1).interface = "eth0" ∧
    collectNet "eth0" [nFix2] = [] ∧
    exOkN (getNetworkInfo (Except.ok [nFix2]) "eth0") = true :=
  C8_network_filter [nFix1, nFix2] "eth0" (mkNet nFix1) (by decide) (by decide)
    [nFix2] (by decide)
